import Mathlib

/-!
Shallow embedding of the metadata-driven file-organization logic of the
`fix_synty_anim_to_godot_with_autorigpro` Blender add-on
(`anim_file_crawler.py` and the pure parts of `__init__.py`), with theorems
checking the natural-language specification against it.

File-system access (`os.listdir`, `os.path.isdir`) is modelled by an explicit
directory tree (`FSNode`); CSV files are modelled as lists of rows of string
cells (`CsvRow`), abstracting the `csv` module's quoting layer as an exact
inverse pair; everything else is translated function by function.
-/

namespace SyntyFix

/-! ## String helpers: Python's `in` operator on strings -/

/-- Model of list-prefix testing used to build the substring test
(`a` is a prefix of `b`). -/
def charsHaveStart : List Char → List Char → Bool
  | [], _ => true
  | _ :: _, [] => false
  | a :: as, b :: bs => a == b && charsHaveStart as bs

/-- Model of Python's `sub in s` substring containment, on character lists. -/
def charsHaveSub (sub : List Char) : List Char → Bool
  | [] => charsHaveStart sub []
  | b :: bs => charsHaveStart sub (b :: bs) || charsHaveSub sub bs

/-- Model of Python's `sub in s` on strings. -/
def strIn (sub s : String) : Bool :=
  charsHaveSub sub.data s.data

/-! ## Path helpers: the `os.path` functions the add-on uses -/

/-- Model of `os.path.join(a, b)` for the POSIX-style paths built here. -/
def os_path_join (a b : String) : String := a ++ "/" ++ b

/-- Model of `os.path.basename`: the last `/`-separated component. -/
def os_path_basename (p : String) : String :=
  (p.splitOn "/").getLastD ""

/-- Model of `os.path.relpath full root` restricted to how the crawler uses
it: every `full` path it passes is built by `os_path_join` below `root`, so
the relative path is `full` with the `root ++ "/"` prefix removed. -/
def os_path_relpath (full root : String) : String :=
  full.drop (root.length + 1)

/-- Helper for `os.path.splitext`: remove the last extension (the final `.`
and everything after it) from a character list known to contain a `.`. -/
def drop_last_ext (cs : List Char) : List Char :=
  ((cs.reverse.dropWhile (fun c => c != '.')).drop 1).reverse

/-- Model of `os.path.splitext(name)[0]` on a basename: split at the last
dot, except that leading dots never start an extension. -/
def os_path_splitext_stem (name : String) : String :=
  let leading := name.data.takeWhile (fun c => c == '.')
  let rest := name.data.dropWhile (fun c => c == '.')
  if rest.any (fun c => c == '.') then
    ⟨leading ++ drop_last_ext rest⟩
  else name

/-! ## Data model (`anim_file_crawler.py`) -/

/-- Line items in the metadata CSV file (dataclass `AnimFileEntryMetadata`).
Python dataclasses compare by field values, matching the derived
`DecidableEq`. -/
structure AnimFileEntryMetadata where
  filename : String
  group : String
  loop : Bool
  root_motion : Bool
  tags : String
  orig_path : String
  deriving DecidableEq, Repr

/-- A crawled animation file (class `AnimFileEntry`). -/
structure AnimFileEntry where
  full_path : String := ""
  relative_path : String := ""
  base_name : String := ""
  should_loop : Bool := false
  deriving DecidableEq, Repr

/-- Constructor state of `AnimFileCrawler` (`root_path`, `loop`,
`filename_must_have`, `filename_must_not_have`). -/
structure AnimFileCrawler where
  root_path : String
  loop : Bool := false
  filename_must_have : Option String := none
  filename_must_not_have : Option String := none
  deriving Repr

mutual
/-- A node of the crawled directory tree: `os.path.isdir` distinguishes the
two cases. -/
inductive FSNode where
  | file : String → FSNode
  | dir : String → FSForest → FSNode
/-- The ordered listing of a directory, as `os.listdir` returns it. -/
inductive FSForest where
  | nil : FSForest
  | cons : FSNode → FSForest → FSForest
end

/-- `AnimFileCrawler.should_loop`: loop inference from the lowercased base
name of the file path. -/
def should_loop (filepath : String) : Bool :=
  let basename := (os_path_basename filepath).toLower
  if strIn "_to_" basename then false
  else if strIn "jump" basename then false
  else if strIn "walk" basename then true
  else if strIn "sprint" basename then true
  else if strIn "shuffle" basename then true
  else if strIn "turn" basename then true
  else if strIn "idle" basename then true
  else false

/-- The `include` flag computed inside `crawl_folders_for_anims`: starts
true, cleared when `filename_must_have` is set but not contained in the
lowercased filename, or `filename_must_not_have` is set and contained. -/
def include_check (c : AnimFileCrawler) (filename_lower : String) : Bool :=
  (match c.filename_must_have with
   | none => true
   | some s => strIn s.toLower filename_lower)
  && (match c.filename_must_not_have with
      | none => true
      | some s => !(strIn s.toLower filename_lower))

/-- The `AnimFileEntry` built for an included file inside
`crawl_folders_for_anims`. -/
def mk_anim_file_entry (c : AnimFileCrawler) (full_path : String) : AnimFileEntry :=
  { full_path := full_path
    relative_path := os_path_relpath full_path c.root_path
    base_name := os_path_basename full_path
    should_loop := should_loop full_path }

/-- `AnimFileCrawler.crawl_folders_for_anims`: walk the listing of
`folder_path` in order, recursing into directories and appending an entry to
`out_entries` for each included `.fbx` file. -/
def crawl_folders_for_anims (c : AnimFileCrawler) :
    String → FSForest → List AnimFileEntry → List AnimFileEntry
  | _, FSForest.nil, out_entries => out_entries
  | folder_path, FSForest.cons (FSNode.file filename) rest, out_entries =>
    let filename_lower := filename.toLower
    let full_path := os_path_join folder_path filename
    if filename_lower.endsWith ".fbx" && include_check c filename_lower then
      crawl_folders_for_anims c folder_path rest
        (out_entries ++ [mk_anim_file_entry c full_path])
    else
      crawl_folders_for_anims c folder_path rest out_entries
  | folder_path, FSForest.cons (FSNode.dir dirname children) rest, out_entries =>
    crawl_folders_for_anims c folder_path rest
      (crawl_folders_for_anims c (os_path_join folder_path dirname) children out_entries)

/-- Specification-side flatten of the directory tree: the full path and
listing name of every file anywhere under the given folder, in the crawler's
visiting order. -/
def filesOf : String → FSForest → List (String × String)
  | _, FSForest.nil => []
  | folder, FSForest.cons (FSNode.file filename) rest =>
    (os_path_join folder filename, filename) :: filesOf folder rest
  | folder, FSForest.cons (FSNode.dir dirname children) rest =>
    filesOf (os_path_join folder dirname) children ++ filesOf folder rest

/-! ## CSV metadata processor (`AnimFileEntryMetadataProcessor`) -/

/-- One row of the metadata CSV file as `csv.DictReader` yields it: a string
cell per header field. -/
structure CsvRow where
  filename : String
  group : String
  loop : String
  root_motion : String
  tags : String
  orig_path : String
  deriving DecidableEq, Repr

/-- Python's `str` on a boolean, as `csv.DictWriter` ends up writing it. -/
def pyBoolStr (b : Bool) : String :=
  if b then "True" else "False"

/-- `AnimFileEntryMetadataProcessor.load_metadata_list`: build a metadata
entry per CSV row — `loop` and `root_motion` become true exactly when the
cell text is `TRUE` — keeping the row unless `ignore_root_motion` is set and
the row has root motion. -/
def load_metadata_list : List CsvRow → Bool → List AnimFileEntryMetadata
  | [], _ => []
  | row :: rest, ignore_root_motion =>
    let metadata : AnimFileEntryMetadata :=
      { filename := row.filename
        group := row.group
        loop := row.loop == "TRUE"
        root_motion := row.root_motion == "TRUE"
        tags := row.tags
        orig_path := row.orig_path }
    if !ignore_root_motion || !metadata.root_motion then
      metadata :: load_metadata_list rest ignore_root_motion
    else
      load_metadata_list rest ignore_root_motion

/-- `AnimFileEntryMetadataProcessor.save_metadata_list`: one CSV row per
entry, writing each field with Python's `str` (booleans as `True`/`False`).
The `csv` module's quoting makes writing and reading cells exact inverses,
so the file is modelled as the list of rows. -/
def save_metadata_list (entry_list : List AnimFileEntryMetadata) : List CsvRow :=
  entry_list.map (fun entry =>
    { filename := entry.filename
      group := entry.group
      loop := pyBoolStr entry.loop
      root_motion := pyBoolStr entry.root_motion
      tags := entry.tags
      orig_path := entry.orig_path })

/-- `AnimFileEntryMetadataProcessor.build_metadata_list_template_from_folder`:
crawls with a default crawler, then builds a metadata entry per crawled file.
Each constructor call `AnimFileEntryMetadata(filename=…, group=…, loop=…,
tags=…, orig_path=…)` omits the required `root_motion` field, so in Python
the first loop iteration raises `TypeError`; the loop is modelled as
returning that error whenever there is at least one entry. -/
def build_metadata_list_template_from_folder (root_path : String)
    (tree : FSForest) : Except String (List AnimFileEntryMetadata) :=
  let anim_crawler : AnimFileCrawler := { root_path := root_path }
  let anim_entries := crawl_folders_for_anims anim_crawler anim_crawler.root_path tree []
  match anim_entries with
  | [] => Except.ok []
  | _ :: _ =>
    Except.error "TypeError: missing 1 required positional argument: root_motion"

/-! ## The organizer (`AnimMetadataOrganizer`) -/

/-- `AnimMetadataOrganizer.try_find_anim_metadata_for_entry`: first metadata
row whose `filename` equals the entry's `base_name`, else `none`. -/
def try_find_anim_metadata_for_entry :
    List AnimFileEntryMetadata → AnimFileEntry → Option AnimFileEntryMetadata
  | [], _ => none
  | metadata :: rest, anim_entry =>
    if metadata.filename == anim_entry.base_name then some metadata
    else try_find_anim_metadata_for_entry rest anim_entry

/-- State of an `AnimMetadataOrganizer`. Python's insertion-ordered dict
`_group_map` is an association list from group name to that group's entry
list; `__init__` sets it empty, and the two t-pose fields default to `None`.
`_anim_metadata_list` is unset until `set_anim_metadata_list` runs; it is
modelled as starting empty. -/
structure AnimMetadataOrganizer where
  group_map : List (String × List AnimFileEntry) := []
  anim_metadata_list : List AnimFileEntryMetadata := []
  tpose_metadata : Option AnimFileEntryMetadata := none
  tpose_file_entry : Option AnimFileEntry := none
  deriving Repr

/-- `AnimMetadataOrganizer()` freshly constructed. -/
def initOrganizer : AnimMetadataOrganizer := {}

/-- `AnimMetadataOrganizer.set_anim_metadata_list`: store the list and scan
it for the first row whose `tags` equals `tpose` (or `None`). -/
def set_anim_metadata_list (o : AnimMetadataOrganizer)
    (anim_metadata_list : List AnimFileEntryMetadata) : AnimMetadataOrganizer :=
  { o with
    anim_metadata_list := anim_metadata_list
    tpose_metadata := anim_metadata_list.find? (fun m => m.tags == "tpose") }

/-- The `_group_map` effect of `add_to_group`: `dict.get` plus creating the
group on a miss plus `entries.append` — append the entry to the bucket of
the key, adding a new key at the end of the dict's insertion order. -/
def mapUpdateAppend (m : List (String × List AnimFileEntry)) (k : String)
    (e : AnimFileEntry) : List (String × List AnimFileEntry) :=
  match m with
  | [] => [(k, [e])]
  | (k2, v) :: rest =>
    if k2 == k then (k2, v ++ [e]) :: rest
    else (k2, v) :: mapUpdateAppend rest k e

/-- `dict.get` on the group map: first binding of the key, if any. -/
def mapGet (m : List (String × List AnimFileEntry)) (k : String) :
    Option (List AnimFileEntry) :=
  match m with
  | [] => none
  | (k2, v) :: rest => if k2 == k then some v else mapGet rest k

/-- `AnimMetadataOrganizer.add_to_group`: get or create the group's bucket
and append the entry. If `_tpose_file_entry` is still `None`, compare the
entry's metadata lookup with `_tpose_metadata` using Python `==` — which is
value equality on dataclasses and makes `None == None` true — and capture
the entry on a match. -/
def add_to_group (o : AnimMetadataOrganizer) (group : String)
    (anim_entry : AnimFileEntry) : AnimMetadataOrganizer :=
  { o with
    group_map := mapUpdateAppend o.group_map group anim_entry
    tpose_file_entry :=
      if o.tpose_file_entry.isNone then
        if try_find_anim_metadata_for_entry o.anim_metadata_list anim_entry
            = o.tpose_metadata then
          some anim_entry
        else o.tpose_file_entry
      else o.tpose_file_entry }

/-- `AnimMetadataOrganizer.get_group_names`: the dict's keys in insertion
order. -/
def get_group_names (o : AnimMetadataOrganizer) : List String :=
  o.group_map.map Prod.fst

/-- `AnimMetadataOrganizer.get_anim_file_entries_for_group`: the group's
entry list, or `[]` when the group is absent. -/
def get_anim_file_entries_for_group (o : AnimMetadataOrganizer)
    (group : String) : List AnimFileEntry :=
  match mapGet o.group_map group with
  | none => []
  | some entries => entries

/-- `AnimMetadataOrganizer.get_tpose_anim_metadata_entry`. -/
def get_tpose_anim_metadata_entry (o : AnimMetadataOrganizer) :
    Option AnimFileEntryMetadata :=
  o.tpose_metadata

/-- `AnimMetadataOrganizer.get_tpose_anim_file_entry`. -/
def get_tpose_anim_file_entry (o : AnimMetadataOrganizer) :
    Option AnimFileEntry :=
  o.tpose_file_entry

/-- A sequence of `add_to_group` calls, as (group, entry) pairs in call
order. -/
def run_adds : AnimMetadataOrganizer → List (String × AnimFileEntry) → AnimMetadataOrganizer
  | o, [] => o
  | o, (group, anim_entry) :: rest => run_adds (add_to_group o group anim_entry) rest

/-! ## The batch-retarget operator (`__init__.py`) -/

/-- Character class kept by `clean_group_name_to_be_filename`'s regular
expression `[^a-zA-Z0-9_-]` (everything else is substituted away). -/
def isAllowedFilenameChar (c : Char) : Bool :=
  ('a' ≤ c && c ≤ 'z') || ('A' ≤ c && c ≤ 'Z') || ('0' ≤ c && c ≤ '9')
    || c == '_' || c == '-'

/-- `clean_group_name_to_be_filename`: `re.sub(r'[^a-zA-Z0-9_-]', '', s)`,
i.e. delete every character outside the class. -/
def clean_group_name_to_be_filename (s : String) : String :=
  ⟨s.data.filter isAllowedFilenameChar⟩

/-- The NLA track/strip name computed for one file inside the export loop of
`SCENE_OP_retarget_batcher.execute`: the extensionless base file name, with
`-loop` appended when the entry should loop and the name does not already
end in `-loop`. -/
def anim_name_for (anim_file_entry : AnimFileEntry) : String :=
  let base_file_name := os_path_splitext_stem (os_path_basename anim_file_entry.full_path)
  if anim_file_entry.should_loop && !(base_file_name.endsWith "-loop") then
    base_file_name ++ "-loop"
  else base_file_name

/-- One observable host-application operator call made by the export loop of
`SCENE_OP_retarget_batcher.execute`. -/
inductive BatchEvent where
  | clear_nla_tracks : String → BatchEvent
  | push_anim : String → String → BatchEvent
  | export_scene : String → BatchEvent
  | purge_orphans : BatchEvent
  deriving DecidableEq, Repr

/-- The grouping loop of `SCENE_OP_retarget_batcher.execute` (lines 87–92):
for each crawled entry, look up its metadata; when a row matches, overwrite
the entry's `should_loop` with the row's `loop` and add it to the row's
group; entries with no matching row are skipped. -/
def organize_entries : AnimMetadataOrganizer → List AnimFileEntry → AnimMetadataOrganizer
  | o, [] => o
  | o, anim_entry :: rest =>
    match try_find_anim_metadata_for_entry o.anim_metadata_list anim_entry with
    | none => organize_entries o rest
    | some metadata =>
      organize_entries
        (add_to_group o metadata.group { anim_entry with should_loop := metadata.loop }) rest

/-- The export loop of `SCENE_OP_retarget_batcher.execute` (lines 130–158),
as the trace of operator calls it issues: per group, clear the target rig's
NLA tracks, push each of the group's files onto an NLA track, export one
scene file named from the sanitized group name under the export path, then
purge orphan data. -/
def run_export_loop (o : AnimMetadataOrganizer) (export_path : String) :
    List BatchEvent :=
  (get_group_names o).foldl (fun trace group =>
    let trace1 := trace ++ [BatchEvent.clear_nla_tracks group]
    let trace2 := (get_anim_file_entries_for_group o group).foldl
      (fun tr anim_file_entry =>
        tr ++ [BatchEvent.push_anim anim_file_entry.full_path (anim_name_for anim_file_entry)])
      trace1
    let sanitized_group_name := clean_group_name_to_be_filename group
    let full_export_path := os_path_join export_path (sanitized_group_name ++ ".glb")
    trace2 ++ [BatchEvent.export_scene full_export_path, BatchEvent.purge_orphans]) []

/-- The pure data-organization pipeline of
`SCENE_OP_retarget_batcher.execute`: crawl the import tree with a default
crawler, load the metadata CSV, group the matched entries, and run the
export loop; returns the operator trace and the located t-pose file entry. -/
def full_pipeline (import_path : String) (tree : FSForest)
    (rows : List CsvRow) (ignore_root_motion : Bool) (export_path : String) :
    List BatchEvent × Option AnimFileEntry :=
  let anim_crawler : AnimFileCrawler := { root_path := import_path }
  let anim_entries := crawl_folders_for_anims anim_crawler anim_crawler.root_path tree []
  let anim_metadata_list := load_metadata_list rows ignore_root_motion
  let organizer := organize_entries
    (set_anim_metadata_list initOrganizer anim_metadata_list) anim_entries
  (run_export_loop organizer export_path, get_tpose_anim_file_entry organizer)

/-! ## Helper lemmas -/

/-- Filtering keeps only elements satisfying the predicate. -/
theorem list_filter_all_self (p : Char → Bool) (l : List Char) :
    (l.filter p).all p = true := by
  induction l with
  | nil => rfl
  | cons a t ih => by_cases h : p a <;> simp [List.filter_cons, h, ih]

/-- Filtering twice by the same predicate equals filtering once. -/
theorem list_filter_idem (p : Char → Bool) (l : List Char) :
    (l.filter p).filter p = l.filter p := by
  induction l with
  | nil => rfl
  | cons a t ih => by_cases h : p a <;> simp [List.filter_cons, h, ih]

/-- The metadata lookup loop is `List.find?` on the filename test. -/
theorem try_find_eq_find? (l : List AnimFileEntryMetadata) (e : AnimFileEntry) :
    try_find_anim_metadata_for_entry l e
      = l.find? (fun m => m.filename == e.base_name) := by
  induction l with
  | nil => rfl
  | cons m rest ih =>
    by_cases h : m.filename == e.base_name <;>
      simp [try_find_anim_metadata_for_entry, List.find?_cons, h, ih]

/-- Loading is parsing every row followed by the root-motion filter. -/
theorem load_eq_filter_map (rows : List CsvRow) (ignore_root_motion : Bool) :
    load_metadata_list rows ignore_root_motion
      = (rows.map (fun row =>
          ({ filename := row.filename
             group := row.group
             loop := row.loop == "TRUE"
             root_motion := row.root_motion == "TRUE"
             tags := row.tags
             orig_path := row.orig_path } : AnimFileEntryMetadata))).filter
          (fun m => !ignore_root_motion || !m.root_motion) := by
  induction rows with
  | nil => rfl
  | cons row rest ih =>
    by_cases h : (!ignore_root_motion || !(row.root_motion == "TRUE")) <;>
      simp [load_metadata_list, List.filter_cons, h, ih]

/-- With `ignore_root_motion` set, no loaded row has root motion. -/
theorem load_true_no_root_motion (rows : List CsvRow) :
    (load_metadata_list rows true).all (fun m => !m.root_motion) = true := by
  induction rows with
  | nil => rfl
  | cons row rest ih =>
    by_cases h : row.root_motion == "TRUE" <;> simp [load_metadata_list, h, ih]

/-- `add_to_group` leaves the stored metadata list unchanged. -/
@[simp] theorem add_to_group_anim_metadata_list (o : AnimMetadataOrganizer)
    (k : String) (e : AnimFileEntry) :
    (add_to_group o k e).anim_metadata_list = o.anim_metadata_list := rfl

/-- `add_to_group` leaves the located t-pose metadata unchanged. -/
@[simp] theorem add_to_group_tpose_metadata (o : AnimMetadataOrganizer)
    (k : String) (e : AnimFileEntry) :
    (add_to_group o k e).tpose_metadata = o.tpose_metadata := rfl

/-- `add_to_group` updates the group map by appending to the key's bucket. -/
@[simp] theorem add_to_group_group_map (o : AnimMetadataOrganizer)
    (k : String) (e : AnimFileEntry) :
    (add_to_group o k e).group_map = mapUpdateAppend o.group_map k e := rfl

/-- Unfolding `run_adds` on an empty call list. -/
@[simp] theorem run_adds_nil (o : AnimMetadataOrganizer) : run_adds o [] = o := rfl

/-- Unfolding `run_adds` on one more call. -/
@[simp] theorem run_adds_cons (o : AnimMetadataOrganizer) (k : String)
    (e : AnimFileEntry) (rest : List (String × AnimFileEntry)) :
    run_adds o ((k, e) :: rest) = run_adds (add_to_group o k e) rest := rfl

/-- Looking up the updated key returns the old bucket plus the new entry. -/
theorem mapGet_mapUpdateAppend_same (m : List (String × List AnimFileEntry))
    (k : String) (e : AnimFileEntry) :
    mapGet (mapUpdateAppend m k e) k = some ((mapGet m k).getD [] ++ [e]) := by
  induction m with
  | nil => simp [mapUpdateAppend, mapGet]
  | cons p rest ih =>
    obtain ⟨k2, v⟩ := p
    by_cases h : k2 == k <;> simp [mapUpdateAppend, mapGet, h, ih]

/-- Looking up any other key is unaffected by the update. -/
theorem mapGet_mapUpdateAppend_ne (m : List (String × List AnimFileEntry))
    (k : String) (e : AnimFileEntry) (g : String) (h : (k == g) = false) :
    mapGet (mapUpdateAppend m k e) g = mapGet m g := by
  induction m with
  | nil => simp [mapUpdateAppend, mapGet, h]
  | cons p rest ih =>
    obtain ⟨k2, v⟩ := p
    by_cases h2 : k2 == k
    · have hk : k2 = k := by simpa using h2
      subst hk
      simp [mapUpdateAppend, mapGet, h2, h]
    · simp [mapUpdateAppend, mapGet, h2, ih]

/-- The group getter is `mapGet` with default `[]`. -/
theorem get_entries_eq_getD (o : AnimMetadataOrganizer) (g : String) :
    get_anim_file_entries_for_group o g = (mapGet o.group_map g).getD [] := by
  unfold get_anim_file_entries_for_group
  cases mapGet o.group_map g <;> rfl

/-- One `add_to_group` call appends the entry to its own group's list and
leaves every other group's list unchanged. -/
theorem entries_add_to_group (o : AnimMetadataOrganizer) (k : String)
    (e : AnimFileEntry) (g : String) :
    get_anim_file_entries_for_group (add_to_group o k e) g
      = get_anim_file_entries_for_group o g ++ (if k == g then [e] else []) := by
  rw [get_entries_eq_getD, get_entries_eq_getD, add_to_group_group_map]
  by_cases h : k = g
  · subst h
    rw [mapGet_mapUpdateAppend_same]
    simp
  · have hb : (k == g) = false := by simpa using h
    rw [mapGet_mapUpdateAppend_ne _ _ _ _ hb]
    simp [hb]

/-- The entries of a group after a call sequence are the old ones followed
by the entries added under that group, in call order. -/
theorem entries_run_adds (adds : List (String × AnimFileEntry)) :
    ∀ (o : AnimMetadataOrganizer) (g : String),
      get_anim_file_entries_for_group (run_adds o adds) g
        = get_anim_file_entries_for_group o g
            ++ (adds.filter (fun p => p.1 == g)).map Prod.snd := by
  induction adds with
  | nil => intro o g; simp
  | cons p rest ih =>
    intro o g
    obtain ⟨k, e⟩ := p
    rw [run_adds_cons, ih, entries_add_to_group]
    by_cases h : k == g <;> simp [List.filter_cons, h, List.append_assoc]

/-- A group name is a key of the updated map iff it was a key before or is
the updated key. -/
theorem keys_mem_mapUpdateAppend (m : List (String × List AnimFileEntry))
    (k : String) (e : AnimFileEntry) (g : String) :
    (g ∈ (mapUpdateAppend m k e).map Prod.fst) ↔ (g ∈ m.map Prod.fst ∨ g = k) := by
  induction m with
  | nil => simp [mapUpdateAppend]
  | cons p rest ih =>
    obtain ⟨k2, v⟩ := p
    by_cases h : k2 == k
    · have hk : k2 = k := by simpa using h
      subst hk
      simp [mapUpdateAppend, h]
      tauto
    · simp [mapUpdateAppend, h, ih]
      tauto

/-- A group name is known after a call sequence iff it was known before or
occurs among the added group names. -/
theorem keys_mem_run_adds (adds : List (String × AnimFileEntry)) :
    ∀ (o : AnimMetadataOrganizer) (g : String),
      g ∈ get_group_names (run_adds o adds)
        ↔ (g ∈ get_group_names o ∨ g ∈ adds.map Prod.fst) := by
  induction adds with
  | nil => intro o g; simp
  | cons p rest ih =>
    intro o g
    obtain ⟨k, e⟩ := p
    rw [run_adds_cons, ih]
    unfold get_group_names
    rw [add_to_group_group_map, keys_mem_mapUpdateAppend]
    simp
    tauto

/-- The t-pose file entry after a call sequence: the one already captured,
else the first added entry whose metadata lookup equals the stored t-pose
metadata under Python `==` (where `None == None` holds). -/
theorem tpose_run_adds (adds : List (String × AnimFileEntry)) :
    ∀ (o : AnimMetadataOrganizer),
      (run_adds o adds).tpose_file_entry
        = match o.tpose_file_entry with
          | some x => some x
          | none =>
            (adds.map Prod.snd).find? (fun e =>
              decide (try_find_anim_metadata_for_entry o.anim_metadata_list e
                = o.tpose_metadata)) := by
  induction adds with
  | nil => intro o; cases h : o.tpose_file_entry <;> simp [h]
  | cons p rest ih =>
    intro o
    obtain ⟨k, e⟩ := p
    rw [run_adds_cons, ih]
    cases h : o.tpose_file_entry with
    | some x =>
      rw [show (add_to_group o k e).tpose_file_entry = some x from by
        simp [add_to_group, h]]
    | none =>
      by_cases hm : try_find_anim_metadata_for_entry o.anim_metadata_list e
          = o.tpose_metadata
      · rw [show (add_to_group o k e).tpose_file_entry = some e from by
          simp [add_to_group, h, hm]]
        simp [List.find?_cons, hm]
      · rw [show (add_to_group o k e).tpose_file_entry = none from by
          simp [add_to_group, h, hm]]
        simp [List.find?_cons, hm]

/-- The sequential `include` flag computation equals the conjunction of the
two optional-substring conditions. -/
theorem include_check_eq_all (c : AnimFileCrawler) (fl : String) :
    include_check c fl
      = (c.filename_must_have.all (fun s => strIn s.toLower fl)
          && c.filename_must_not_have.all (fun s => !(strIn s.toLower fl))) := by
  rcases c with ⟨rp, lp, mh, mnh⟩
  cases mh <;> cases mnh <;> rfl

/-- Closed form of the crawl: the accumulator followed by an entry for each
file anywhere in the tree whose listing name passes the extension and
substring checks, in visiting order. -/
theorem crawl_closed_form (c : AnimFileCrawler) :
    ∀ (folder_path : String) (ns : FSForest) (out_entries : List AnimFileEntry),
      crawl_folders_for_anims c folder_path ns out_entries
        = out_entries
          ++ ((filesOf folder_path ns).filter (fun p =>
                p.2.toLower.endsWith ".fbx" && include_check c p.2.toLower)).map
              (fun p => mk_anim_file_entry c p.1)
  | folder_path, FSForest.nil, out_entries => by
    simp [crawl_folders_for_anims, filesOf]
  | folder_path, FSForest.cons (FSNode.file filename) rest, out_entries => by
    by_cases h : (filename.toLower.endsWith ".fbx" && include_check c filename.toLower) <;>
      simp [crawl_folders_for_anims, filesOf, List.filter_cons, h,
        crawl_closed_form c folder_path rest, List.append_assoc]
  | folder_path, FSForest.cons (FSNode.dir dirname children) rest, out_entries => by
    simp only [crawl_folders_for_anims, filesOf]
    rw [crawl_closed_form c (os_path_join folder_path dirname) children out_entries,
      crawl_closed_form c folder_path rest]
    simp [List.filter_append, List.append_assoc]

/-- A fold that emits one event per element appends the mapped events. -/
theorem foldl_emit_map {α : Type} (f : α → BatchEvent) (l : List α) :
    ∀ (init : List BatchEvent),
      l.foldl (fun tr a => tr ++ [f a]) init = init ++ l.map f := by
  induction l with
  | nil => intro init; simp
  | cons a t ih => intro init; simp [List.foldl_cons, ih, List.append_assoc]

/-- The export loop's fold emits, per group name, the clear/push…/export/
purge block of that group. -/
theorem export_loop_fold (o : AnimMetadataOrganizer) (export_path : String)
    (names : List String) :
    ∀ (init : List BatchEvent),
      names.foldl (fun trace group =>
        let trace1 := trace ++ [BatchEvent.clear_nla_tracks group]
        let trace2 := (get_anim_file_entries_for_group o group).foldl
          (fun tr anim_file_entry =>
            tr ++ [BatchEvent.push_anim anim_file_entry.full_path
                    (anim_name_for anim_file_entry)])
          trace1
        let sanitized_group_name := clean_group_name_to_be_filename group
        let full_export_path := os_path_join export_path (sanitized_group_name ++ ".glb")
        trace2 ++ [BatchEvent.export_scene full_export_path, BatchEvent.purge_orphans]) init
      = init ++ (names.map (fun group =>
          BatchEvent.clear_nla_tracks group
            :: ((get_anim_file_entries_for_group o group).map (fun e =>
                  BatchEvent.push_anim e.full_path (anim_name_for e))
                ++ [BatchEvent.export_scene (os_path_join export_path
                      (clean_group_name_to_be_filename group ++ ".glb")),
                    BatchEvent.purge_orphans]))).flatten := by
  induction names with
  | nil => intro init; simp
  | cons n t ih =>
    intro init
    rw [List.foldl_cons, ih]
    simp [foldl_emit_map, List.append_assoc]

/-- The metadata lookup reads only the entry's base name. -/
theorem try_find_only_base_name (l : List AnimFileEntryMetadata)
    (e1 e2 : AnimFileEntry) (h : e1.base_name = e2.base_name) :
    try_find_anim_metadata_for_entry l e1 = try_find_anim_metadata_for_entry l e2 := by
  induction l with
  | nil => rfl
  | cons m rest ih => simp [try_find_anim_metadata_for_entry, h, ih]

/-- Appending an entry satisfying a per-entry predicate to a bucket keeps
every bucket's entries satisfying it. -/
theorem all_entries_mapUpdateAppend (q : AnimFileEntry → Bool)
    (m : List (String × List AnimFileEntry)) (k : String) (e : AnimFileEntry)
    (hm : m.all (fun p => p.2.all q) = true) (he : q e = true) :
    (mapUpdateAppend m k e).all (fun p => p.2.all q) = true := by
  induction m with
  | nil => simp [mapUpdateAppend, he]
  | cons p rest ih =>
    obtain ⟨k2, v⟩ := p
    simp only [List.all_cons, Bool.and_eq_true] at hm
    by_cases h : k2 == k
    · rw [show mapUpdateAppend ((k2, v) :: rest) k e = (k2, v ++ [e]) :: rest from by
        simp [mapUpdateAppend, h]]
      simp only [List.all_cons, Bool.and_eq_true]
      exact ⟨by simp [List.all_append, hm.1, he], hm.2⟩
    · rw [show mapUpdateAppend ((k2, v) :: rest) k e
          = (k2, v) :: mapUpdateAppend rest k e from by simp [mapUpdateAppend, h]]
      simp only [List.all_cons, Bool.and_eq_true]
      exact ⟨hm.1, ih hm.2⟩

/-- Every entry stored by the grouping loop has a matching metadata row:
entries without one are skipped, and the stored copy differs only in
`should_loop`. -/
theorem organize_entries_matched (l : List AnimFileEntryMetadata) :
    ∀ (entries : List AnimFileEntry) (o : AnimMetadataOrganizer),
      o.anim_metadata_list = l →
      (o.group_map.all (fun p => p.2.all (fun e =>
          (try_find_anim_metadata_for_entry l e).isSome)) = true) →
      ((organize_entries o entries).group_map.all (fun p => p.2.all (fun e =>
          (try_find_anim_metadata_for_entry l e).isSome)) = true)
  | [], _, _, h2 => h2
  | anim_entry :: rest, o, h1, h2 => by
    cases hm : try_find_anim_metadata_for_entry o.anim_metadata_list anim_entry with
    | none =>
      rw [show organize_entries o (anim_entry :: rest) = organize_entries o rest from by
        simp [organize_entries, hm]]
      exact organize_entries_matched l rest o h1 h2
    | some metadata =>
      rw [show organize_entries o (anim_entry :: rest)
          = organize_entries (add_to_group o metadata.group
              { anim_entry with should_loop := metadata.loop }) rest from by
        simp [organize_entries, hm]]
      apply organize_entries_matched l rest
      · exact h1
      · apply all_entries_mapUpdateAppend _ _ _ _ h2
        rw [try_find_only_base_name l
          { anim_entry with should_loop := metadata.loop } anim_entry rfl, ← h1, hm]
        rfl

/-! ## Claim theorems -/

/-- C1 (amended): after `set_anim_metadata_list` and a sequence of
`add_to_group` calls, `get_tpose_anim_file_entry` returns the first added
entry whose first filename-matching metadata row equals — as an optional
value, where the absent row equals the absent t-pose row — the first row
tagged `tpose`; in particular it returns `none` iff no added entry's lookup
result equals that (possibly absent) t-pose row. -/
theorem tpose_file_entry_characterization (l : List AnimFileEntryMetadata)
    (adds : List (String × AnimFileEntry)) :
    get_tpose_anim_file_entry (run_adds (set_anim_metadata_list initOrganizer l) adds)
      = (adds.map Prod.snd).find? (fun e =>
          decide (try_find_anim_metadata_for_entry l e
            = l.find? (fun m => m.tags == "tpose"))) := by
  have h := tpose_run_adds adds (set_anim_metadata_list initOrganizer l)
  simpa [get_tpose_anim_file_entry, set_anim_metadata_list, initOrganizer] using h

/-- C1 counterexample: with no metadata row tagged `tpose` (here no rows at
all) and an entry added whose base name matches no row, the claim says
`get_tpose_anim_file_entry` returns `none`; but `add_to_group` compares the
`None` lookup result with the `None` t-pose metadata using Python `==`,
which holds, so the entry is captured and the getter is not `none`. -/
theorem tpose_claim_counterexample :
    get_tpose_anim_file_entry
      (add_to_group (set_anim_metadata_list initOrganizer [])
        "Group" { base_name := "Anim.fbx" }) ≠ none := by
  decide

/-- C2: the crawl visits every subdirectory recursively and appends to
`out_entries` exactly those files whose lowercased filename ends with
`.fbx`, contains `filename_must_have` case-insensitively when it is set,
and does not contain `filename_must_not_have` case-insensitively when it is
set; each appended entry carries the file's full path, its path relative to
`root_path`, its base name, and the `should_loop` inference for it. -/
theorem crawl_folders_for_anims_spec (c : AnimFileCrawler) (folder_path : String)
    (ns : FSForest) (out_entries : List AnimFileEntry) :
    crawl_folders_for_anims c folder_path ns out_entries
      = out_entries
        ++ ((filesOf folder_path ns).filter (fun p =>
              p.2.toLower.endsWith ".fbx"
                && (c.filename_must_have.all (fun s => strIn s.toLower p.2.toLower)
                    && c.filename_must_not_have.all (fun s => !(strIn s.toLower p.2.toLower))))).map
            (fun p =>
              ({ full_path := p.1
                 relative_path := os_path_relpath p.1 c.root_path
                 base_name := os_path_basename p.1
                 should_loop := should_loop p.1 } : AnimFileEntry)) := by
  have hp : (fun p : String × String =>
        p.2.toLower.endsWith ".fbx" && include_check c p.2.toLower)
      = (fun p : String × String =>
          p.2.toLower.endsWith ".fbx"
            && (c.filename_must_have.all (fun s => strIn s.toLower p.2.toLower)
                && c.filename_must_not_have.all (fun s => !(strIn s.toLower p.2.toLower)))) :=
    funext fun p => by rw [include_check_eq_all]
  rw [crawl_closed_form, hp]
  rfl

/-- C3: `should_loop` returns `false` when the lowercased base name contains
`_to_` or `jump` (these take precedence); otherwise it returns `true` exactly
when the lowercased base name contains one of `walk`, `sprint`, `shuffle`,
`turn` or `idle`, and `false` otherwise. -/
theorem should_loop_spec (filepath : String) :
    should_loop filepath =
      (!(strIn "_to_" ((os_path_basename filepath).toLower)
            || strIn "jump" ((os_path_basename filepath).toLower))
        && (strIn "walk" ((os_path_basename filepath).toLower)
            || strIn "sprint" ((os_path_basename filepath).toLower)
            || strIn "shuffle" ((os_path_basename filepath).toLower)
            || strIn "turn" ((os_path_basename filepath).toLower)
            || strIn "idle" ((os_path_basename filepath).toLower))) := by
  simp only [should_loop]
  split_ifs <;> simp_all

/-- C4: `try_find_anim_metadata_for_entry` returns the first metadata row
whose `filename` equals the entry's `base_name` exactly (and `none` when no
row matches); `load_metadata_list` parses each CSV row setting `loop` and
`root_motion` to true exactly when the cell text is exactly `TRUE`, and with
`ignore_root_motion` set the returned list has no row with root motion. -/
theorem metadata_matching_and_loading_spec (l : List AnimFileEntryMetadata)
    (e : AnimFileEntry) (rows : List CsvRow) (ignore_root_motion : Bool) :
    try_find_anim_metadata_for_entry l e
        = l.find? (fun m => m.filename == e.base_name)
    ∧ load_metadata_list rows ignore_root_motion
        = (rows.map (fun row =>
            ({ filename := row.filename
               group := row.group
               loop := row.loop == "TRUE"
               root_motion := row.root_motion == "TRUE"
               tags := row.tags
               orig_path := row.orig_path } : AnimFileEntryMetadata))).filter
            (fun m => !ignore_root_motion || !m.root_motion)
    ∧ (load_metadata_list rows true).all (fun m => !m.root_motion) = true :=
  ⟨try_find_eq_find? l e, load_eq_filter_map rows ignore_root_motion,
    load_true_no_root_motion rows⟩

/-- C5: after any sequence of `add_to_group` calls on a fresh organizer,
each group's list holds exactly the entries added under that group name, in
the order they were added (so an entry appears in no other group's list, and
a never-added group yields the empty list), and the known group names are
exactly the ones that were added. -/
theorem grouping_spec (l : List AnimFileEntryMetadata)
    (adds : List (String × AnimFileEntry)) (g : String) :
    get_anim_file_entries_for_group
        (run_adds (set_anim_metadata_list initOrganizer l) adds) g
      = (adds.filter (fun p => p.1 == g)).map Prod.snd
    ∧ (g ∈ get_group_names (run_adds (set_anim_metadata_list initOrganizer l) adds)
        ↔ g ∈ adds.map Prod.fst) := by
  constructor
  · rw [entries_run_adds]
    rw [show get_anim_file_entries_for_group (set_anim_metadata_list initOrganizer l) g
        = [] from rfl]
    simp
  · rw [keys_mem_run_adds]
    simp [get_group_names, set_anim_metadata_list, initOrganizer]

/-- C6: the operator trace of the batch-retarget export loop is, for each
group in order, the clearing of the target rig's NLA tracks, then the
import/retarget push of each of that group's files in order, then that
group's single scene-file export (and the orphan purge) — so every push
happens after its group's clear and before its group's export; and the
grouping loop stores a crawled entry only when a metadata row matches its
base name. -/
theorem operator_sequence_spec (o : AnimMetadataOrganizer) (export_path : String)
    (l : List AnimFileEntryMetadata) (entries : List AnimFileEntry) :
    run_export_loop o export_path
      = ((get_group_names o).map (fun group =>
          BatchEvent.clear_nla_tracks group
            :: ((get_anim_file_entries_for_group o group).map (fun e =>
                  BatchEvent.push_anim e.full_path (anim_name_for e))
                ++ [BatchEvent.export_scene (os_path_join export_path
                      (clean_group_name_to_be_filename group ++ ".glb")),
                    BatchEvent.purge_orphans]))).flatten
    ∧ ((organize_entries (set_anim_metadata_list initOrganizer l) entries).group_map.all
        (fun p => p.2.all (fun e =>
          (try_find_anim_metadata_for_entry l e).isSome)) = true) := by
  constructor
  · have h := export_loop_fold o export_path (get_group_names o) []
    simpa [run_export_loop] using h
  · exact organize_entries_matched l entries (set_anim_metadata_list initOrganizer l) rfl rfl

/-- C7: the crawl/load/match/group/export-trace pipeline is a pure function
of the directory listing, the CSV rows and the settings, so two runs on the
same input produce identical outputs. -/
theorem pipeline_deterministic (import_path : String) (tree : FSForest)
    (rows : List CsvRow) (ignore_root_motion : Bool) (export_path : String) :
    full_pipeline import_path tree rows ignore_root_motion export_path
      = full_pipeline import_path tree rows ignore_root_motion export_path := rfl

/-- C8: `build_metadata_list_template_from_folder` hits the `TypeError` from
the `AnimFileEntryMetadata` call missing `root_motion` whenever the crawl
finds at least one matching file, and returns the empty list exactly when
the crawl finds none. -/
theorem build_template_error_spec (root_path : String) (tree : FSForest) :
    (build_metadata_list_template_from_folder root_path tree = Except.ok []
        ↔ crawl_folders_for_anims { root_path := root_path } root_path tree [] = [])
    ∧ (build_metadata_list_template_from_folder root_path tree).isOk
        = (crawl_folders_for_anims { root_path := root_path } root_path tree []).isEmpty := by
  unfold build_metadata_list_template_from_folder
  cases h : crawl_folders_for_anims { root_path := root_path } root_path tree [] with
  | nil => simp [h, Except.isOk, Except.toBool]
  | cons a t => simp [h, Except.isOk, Except.toBool]

/-- C9: saving a metadata list and loading it back (without ignoring root
motion) keeps the length and the `filename`, `group`, `tags` and `orig_path`
fields, but every `loop` and `root_motion` comes back `false`: booleans are
written `True`/`False` while loading only recognizes `TRUE`. -/
theorem save_load_round_trip (entry_list : List AnimFileEntryMetadata) :
    load_metadata_list (save_metadata_list entry_list) false
      = entry_list.map (fun m => { m with loop := false, root_motion := false }) := by
  induction entry_list with
  | nil => rfl
  | cons m rest ih =>
    have h1 : (pyBoolStr m.loop == "TRUE") = false := by cases m.loop <;> rfl
    have h2 : (pyBoolStr m.root_motion == "TRUE") = false := by
      cases m.root_motion <;> rfl
    simp [save_metadata_list, load_metadata_list, h1, h2] at ih ⊢
    exact ih

/-- C10: `clean_group_name_to_be_filename` returns a string containing only
ASCII letters, digits, underscores and hyphens, and is idempotent. -/
theorem clean_group_name_spec (s : String) :
    (clean_group_name_to_be_filename s).data.all isAllowedFilenameChar = true
    ∧ clean_group_name_to_be_filename (clean_group_name_to_be_filename s)
        = clean_group_name_to_be_filename s :=
  ⟨list_filter_all_self isAllowedFilenameChar s.data,
    congrArg String.mk (list_filter_idem isAllowedFilenameChar s.data)⟩

end SyntyFix
